import Mathlib

/-!
Verification development for the email-visual-tester repository.

The development shallowly embeds the core of the repository:
the filename sanitizer (`sanitizeFilename`), the Email on Acid polling
engine (`getPreviewUrls` and its internal helpers `fetchResults`,
`processClientResults`, `handleCompleteClient`, `handleFailedClient`,
`checkIfShouldExit`, `buildFinalResults`), and the preview materialization
performed by the global setup.

JavaScript objects used as string-keyed maps are embedded as association
lists (`alookup`/`updateA` mirror property read and property assignment;
a JavaScript object has no duplicate keys, which `WFmap` expresses).
JavaScript string truthiness (`!x` on a possibly-absent string property)
is embedded by `truthy`.  Strings processed character by character
(sanitizer, preview names) are embedded as `List Char`; the model of
`toLowerCase`/`toUpperCase` covers the ASCII case mapping, which is the
only fragment the surrounding code can observe after its character
filtering.  Network effects are embedded by an environment function
`wire : Nat → HttpResponse` giving the response of each poll attempt,
and thrown errors by an `error` result.
-/

/-- JavaScript property read `m[k]` on an object embedded as an
association list: the value at the first matching key, if any. -/
def alookup {β : Type} (k : String) : List (String × β) → Option β
  | [] => none
  | p :: ps => if p.1 = k then some p.2 else alookup k ps

/-- JavaScript property assignment `m[k] = v`: replaces the value at an
existing key in place, otherwise appends the new key at the end (the
insertion-order semantics of JavaScript objects). -/
def updateA {β : Type} (m : List (String × β)) (k : String) (v : β) : List (String × β) :=
  if (alookup k m).isSome then m.map (fun p => if p.1 = k then (k, v) else p)
  else m ++ [(k, v)]

/-- A well-formed embedded object: no duplicate keys (JavaScript objects
cannot have any). -/
def WFmap {β : Type} (m : List (String × β)) : Prop := (m.map Prod.fst).Nodup

/-- JavaScript truthiness of `m[k]` for a string-valued map: `undefined`
and the empty string are falsy. -/
def truthy : Option String → Bool
  | none => false
  | some s => decide (s ≠ "")

/-- One client's entry in a status snapshot, as returned by the backend:
`{ status, screenshots?: { default: url } }`.  `screenshot` is
`some url` when `screenshots?.default` is present and is a string. -/
structure ClientEntry where
  status : String
  screenshot : Option String
deriving Repr, DecidableEq

/-- A status snapshot: the object mapping client ids to their entries. -/
abbrev Snapshot := List (String × ClientEntry)

/-- The mutable `capturedUrls` object of the poller: client id to captured
screenshot URL, with the empty string as the recorded-failure sentinel. -/
abbrev UrlMap := List (String × String)

/-- The upper bound 100 and character handling of `sanitizeFilename`:
the JavaScript regex class `\s` (ASCII and Unicode white space). -/
def jsWhitespace (ch : Char) : Bool := decide (
  ch.toNat = 9 ∨ ch.toNat = 10 ∨ ch.toNat = 11 ∨ ch.toNat = 12 ∨ ch.toNat = 13 ∨
  ch.toNat = 32 ∨ ch.toNat = 0xa0 ∨ ch.toNat = 0x1680 ∨
  (0x2000 ≤ ch.toNat ∧ ch.toNat ≤ 0x200a) ∨ ch.toNat = 0x2028 ∨ ch.toNat = 0x2029 ∨
  ch.toNat = 0x202f ∨ ch.toNat = 0x205f ∨ ch.toNat = 0x3000 ∨ ch.toNat = 0xfeff)

/-- The character class `[a-z0-9\s-.]` of `sanitizeFilename`'s first
`replace`: the characters kept by the strip. -/
def allowedChar (ch : Char) : Bool :=
  decide ((97 ≤ ch.toNat ∧ ch.toNat ≤ 122) ∨ (48 ≤ ch.toNat ∧ ch.toNat ≤ 57)) ||
  jsWhitespace ch || decide (ch.toNat = 45 ∨ ch.toNat = 46)

/-- ASCII fragment of JavaScript `toLowerCase` (the only fragment the
sanitizer can observe after the `[a-z0-9\s-.]` strip). -/
def toLowerModel (ch : Char) : Char :=
  if 65 ≤ ch.toNat ∧ ch.toNat ≤ 90 then Char.ofNat (ch.toNat + 32) else ch

/-- The second `replace` of `sanitizeFilename`: `replace(/\s+/g, sep)`
replaces every maximal run of white space by a single separator.
`prevWs` records whether the previous character belonged to a run. -/
def collapseWsAux (sep : Char) (prevWs : Bool) : List Char → List Char
  | [] => []
  | ch :: cs =>
    if jsWhitespace ch then
      (if prevWs then [] else [sep]) ++ collapseWsAux sep true cs
    else ch :: collapseWsAux sep false cs

/-- `sanitizeFilename(name, useHyphens)` from `src/utils/filename.ts`:
lowercase, strip characters outside `[a-z0-9\s-.]`, collapse white-space
runs into the separator, truncate to 100 characters. -/
def sanitizeFilename (name : List Char) (useHyphens : Bool) : List Char :=
  (collapseWsAux (if useHyphens then '-' else '_') false
      ((name.map toLowerModel).filter allowedChar)).take 100

/-- `handleCompleteClient` of `EmailOnAcidService`: when a client reports
`Complete`, capture `screenshots?.default` if it is a truthy string and no
truthy URL is recorded yet for the client. -/
def handleCompleteClient (clientId : String) (client : ClientEntry)
    (capturedUrls : UrlMap) : UrlMap :=
  match client.screenshot with
  | some screenshotUrl =>
    if screenshotUrl ≠ "" then
      if truthy (alookup clientId capturedUrls) = false then
        updateA capturedUrls clientId screenshotUrl
      else capturedUrls
    else capturedUrls
  | none => capturedUrls

/-- `handleFailedClient` of `EmailOnAcidService`: record the empty-string
failure sentinel for a `Failed`/`Bounced` client with no truthy entry. -/
def handleFailedClient (clientId : String) (_status : String)
    (capturedUrls : UrlMap) : UrlMap :=
  if truthy (alookup clientId capturedUrls) = false then updateA capturedUrls clientId ""
  else capturedUrls

/-- The `clientsToCheck` computation shared by `processClientResults` and
`checkIfShouldExit`: the requested clients, falling back to the keys of
the snapshot when the requested list is empty. -/
def clientsToCheck (requestedClients : List String) (results : Snapshot) : List String :=
  if requestedClients.length > 0 then requestedClients else results.map Prod.fst

/-- The body of `processClientResults`'s loop for one client id: skip an
absent client, otherwise record it as found and dispatch on its status. -/
def processOne (results : Snapshot) (acc : List String × UrlMap)
    (clientId : String) : List String × UrlMap :=
  match alookup clientId results with
  | none => acc
  | some client =>
    (acc.1 ++ [clientId],
      if client.status = "Complete" then handleCompleteClient clientId client acc.2
      else if client.status = "Failed" ∨ client.status = "Bounced" then
        handleFailedClient clientId client.status acc.2
      else acc.2)

/-- `processClientResults` of `EmailOnAcidService`: examine each client of
the snapshot and update `capturedUrls`; returns the clients found in the
snapshot together with the updated map. -/
def processClientResults (results : Snapshot) (requestedClients : List String)
    (capturedUrls : UrlMap) : List String × UrlMap :=
  (clientsToCheck requestedClients results).foldl (processOne results) ([], capturedUrls)

/-- Terminal statuses per the backend's status field. -/
def isTerminal (s : String) : Bool :=
  s == "Complete" || s == "Failed" || s == "Bounced"

/-- `appearedClients` of `checkIfShouldExit`: the checked clients present
in the current snapshot. -/
def appearedClients (requestedClients : List String) (results : Snapshot) : List String :=
  (clientsToCheck requestedClients results).filter (fun id => (alookup id results).isSome)

/-- `finishedClients` of `checkIfShouldExit`: appeared clients whose
backend status is terminal. -/
def finishedClients (requestedClients : List String) (results : Snapshot) : List String :=
  (appearedClients requestedClients results).filter (fun id =>
    match alookup id results with
    | some e => isTerminal e.status
    | none => false)

/-- `allFinished` of `checkIfShouldExit`: every appeared client is
finished (computed by comparing filter lengths, as in the source). -/
def allFinishedB (requestedClients : List String) (results : Snapshot) : Bool :=
  (finishedClients requestedClients results).length ==
    (appearedClients requestedClients results).length

/-- `allRequestedAppeared` of `checkIfShouldExit`. -/
def allRequestedAppearedB (requestedClients : List String) (results : Snapshot) : Bool :=
  (appearedClients requestedClients results).length ==
    (clientsToCheck requestedClients results).length

/-- `completeClients` of `checkIfShouldExit`: appeared clients whose
backend status is `Complete`. -/
def completeClients (requestedClients : List String) (results : Snapshot) : List String :=
  (appearedClients requestedClients results).filter (fun id =>
    match alookup id results with
    | some e => e.status == "Complete"
    | none => false)

/-- `completeWithUrls` of `checkIfShouldExit`: complete clients with a
truthy captured URL. -/
def completeWithUrls (requestedClients : List String) (results : Snapshot)
    (capturedUrls : UrlMap) : List String :=
  (completeClients requestedClients results).filter (fun id =>
    truthy (alookup id capturedUrls))

/-- `allCompleteHaveUrls` of `checkIfShouldExit`. -/
def allCompleteHaveUrlsB (requestedClients : List String) (results : Snapshot)
    (capturedUrls : UrlMap) : Bool :=
  (completeWithUrls requestedClients results capturedUrls).length ==
    (completeClients requestedClients results).length

/-- `checkIfShouldExit` of `EmailOnAcidService`: the ordered, short-circuit
termination rule of the polling loop (the `clientsInResults` argument is
received but, as in the source, not used). -/
def checkIfShouldExit (requestedClients : List String) (results : Snapshot)
    (capturedUrls : UrlMap) (_clientsInResults : List String) (attempt : Nat) : Bool :=
  if results.isEmpty then false
  else if !allFinishedB requestedClients results then false
  else if !allRequestedAppearedB requestedClients results && !decide (10 ≤ attempt) then false
  else if allCompleteHaveUrlsB requestedClients results capturedUrls || decide (15 ≤ attempt) then
    true
  else false

/-- `buildFinalResults` of `EmailOnAcidService`: keep only the truthy
captured URLs (the `requestedClients` argument is only used for logging
in the source). -/
def buildFinalResults (_requestedClients : List String) (capturedUrls : UrlMap) : UrlMap :=
  capturedUrls.filter (fun p => decide (p.2 ≠ ""))

/-- One attempt's network outcome for the status poll: a successful HTTP
response carrying `response.data` (absent when falsy), or a request
failure carrying the HTTP status when one exists. -/
inductive HttpResponse where
  | success (data : Option Snapshot)
  | failure (status : Option Nat)

/-- `fetchResults` of `EmailOnAcidService`: a successful response yields
`response.data || {}`; a failure with HTTP status 401 throws the
authentication error; every other failure yields `null` (a soft failure
the caller retries). -/
def fetchResults (resp : HttpResponse) : Except String (Option Snapshot) :=
  match resp with
  | .success data => .ok (some (data.getD []))
  | .failure status =>
    if status = some 401 then .error "Authentication failed - check your API credentials"
    else .ok none

/-- Result of the polling entry point: the map of successful URLs, or a
thrown error. -/
inductive PollResult where
  | ok (urls : UrlMap)
  | error (msg : String)
deriving Repr, DecidableEq

/-- The polling loop of `getPreviewUrls`, from the current attempt number
with the given remaining budget; also counts the poll attempts performed.
A soft failure skips the attempt; an exit decision breaks out; an
exhausted budget falls through to `buildFinalResults` exactly like a
clean exit. -/
def pollFromAux (emailClients : List String) (wire : Nat → HttpResponse) :
    UrlMap → Nat → Nat → PollResult × Nat
  | capturedUrls, _, 0 => (.ok (buildFinalResults emailClients capturedUrls), 0)
  | capturedUrls, attempt, r + 1 =>
    match fetchResults (wire attempt) with
    | .error msg => (.error msg, 1)
    | .ok none =>
      let next := pollFromAux emailClients wire capturedUrls (attempt + 1) r
      (next.1, next.2 + 1)
    | .ok (some results) =>
      let processed := processClientResults results emailClients capturedUrls
      if checkIfShouldExit emailClients results processed.2 processed.1 attempt then
        (.ok (buildFinalResults emailClients processed.2), 1)
      else
        let next := pollFromAux emailClients wire processed.2 (attempt + 1) r
        (next.1, next.2 + 1)

/-- `getPreviewUrls` of `EmailOnAcidService`: reject a falsy test id
before any poll attempt, otherwise run the loop from attempt 1 with an
empty captured-URL map. -/
def getPreviewUrls (test_id : Option String) (emailClients : List String)
    (wire : Nat → HttpResponse) (maxAttempts : Nat) : PollResult × Nat :=
  if truthy test_id = false then (.error "Missing test ID", 0)
  else pollFromAux emailClients wire [] 1 maxAttempts

/-- The effect of a sequence of processed snapshots on the captured-URL
map (the loop's mutations over a session; soft-failure attempts leave the
map untouched and exit decisions only stop the sequence). -/
def processSnapshots (requestedClients : List String) (capturedUrls : UrlMap)
    (snaps : List Snapshot) : UrlMap :=
  snaps.foldl (fun m s => (processClientResults s requestedClients m).2) capturedUrls

/-- The spec's ordered, short-circuit termination rule, written with
universally quantified conditions exactly as the spec states them
(comparison target for `checkIfShouldExit`). -/
def specShouldExit (requestedClients : List String) (results : Snapshot)
    (capturedUrls : UrlMap) (attempt : Nat) : Bool :=
  if results.isEmpty then false
  else if !((clientsToCheck requestedClients results).all fun id =>
      match alookup id results with
      | some e => isTerminal e.status
      | none => true) then false
  else if !((clientsToCheck requestedClients results).all fun id =>
      (alookup id results).isSome) && !decide (10 ≤ attempt) then false
  else if ((clientsToCheck requestedClients results).all fun id =>
      match alookup id results with
      | some e => if e.status = "Complete" then truthy (alookup id capturedUrls) else true
      | none => true) || decide (15 ≤ attempt) then true
  else false

/-- Client ids that have appeared in any snapshot of a session history. -/
def appearedSoFar (history : List Snapshot) : List String :=
  (history.map (fun s => s.map Prod.fst)).flatten

/-- The backend's latest reported status for a client over a session
history: the status in the most recent snapshot containing the client. -/
def latestStatus (history : List Snapshot) (id : String) : Option String :=
  history.foldl (fun acc s =>
    match alookup id s with
    | some e => some e.status
    | none => acc) none

/-- The spec's `allFinished` condition, written from the spec's words
(comparison target): every client that has appeared in ANY snapshot so
far is in a terminal status per the backend's own status field. -/
def specAllFinishedHistory (history : List Snapshot) : Bool :=
  (appearedSoFar history).all fun id =>
    match latestStatus history id with
    | some st => isTerminal st
    | none => false

/-- The preview record materialized by the global setup for one entry of
the successful-URL map. -/
structure GeneratedPreview where
  name : List Char
  url : List Char
  client : List Char
deriving Repr, DecidableEq

/-- JavaScript word characters `\w` (`[A-Za-z0-9_]`). -/
def isWordChar (ch : Char) : Bool := decide (
  (97 ≤ ch.toNat ∧ ch.toNat ≤ 122) ∨ (65 ≤ ch.toNat ∧ ch.toNat ≤ 90) ∨
  (48 ≤ ch.toNat ∧ ch.toNat ≤ 57) ∨ ch.toNat = 95)

/-- ASCII fragment of JavaScript `toUpperCase` (the only fragment the
word-character replacement can produce from `\w` matches it rewrites). -/
def toUpperModel (ch : Char) : Char :=
  if 97 ≤ ch.toNat ∧ ch.toNat ≤ 122 then Char.ofNat (ch.toNat - 32) else ch

/-- `replace(/_/g, ' ')` of the global setup's preview-name derivation. -/
def replUnderscore (l : List Char) : List Char :=
  l.map (fun ch => if ch = '_' then ' ' else ch)

/-- `replace(/\b\w/g, ch => ch.toUpperCase())`: a left-to-right scan that
uppercases each word character standing at a word boundary (`prevWord`
records whether the previous character was a word character). -/
def capWordsAux (prevWord : Bool) : List Char → List Char
  | [] => []
  | ch :: cs =>
    (if isWordChar ch && !prevWord then toUpperModel ch else ch) ::
      capWordsAux (isWordChar ch) cs

/-- The preview name built by the global setup: underscores to spaces,
word-initial characters uppercased, then the literal suffix. -/
def previewNameOf (client : List Char) : List Char :=
  capWordsAux false (replUnderscore client) ++ " Preview".data

/-- The `GeneratedPreview` the global setup materializes from one
`(client, url)` entry of the successful-URL map. -/
def materializePreview (client url : List Char) : GeneratedPreview :=
  { name := previewNameOf client, url := url, client := client }

/-- Capitalization described word by word (comparison target for the
scan `capWordsAux`): each maximal run of word characters has its first
character uppercased, all other characters are kept. -/
def capRuns : List Char → List Char
  | [] => []
  | ch :: cs =>
    if isWordChar ch then
      (toUpperModel ch :: cs.takeWhile isWordChar) ++ capRuns (cs.dropWhile isWordChar)
    else ch :: capRuns cs
termination_by l => l.length
decreasing_by
  · simpa using Nat.lt_succ_of_le ((List.dropWhile_sublist isWordChar).length_le)
  · simp

/-! ### Association-list lemmas -/

theorem alookup_append {β : Type} (k : String) (m l : List (String × β)) :
    alookup k (m ++ l) =
      match alookup k m with
      | some v => some v
      | none => alookup k l := by
  induction m with
  | nil => simp [alookup]
  | cons p ps ih =>
    by_cases h : p.1 = k <;> simp [alookup, h, ih]

theorem alookup_map_set {β : Type} (k : String) (v : β) (m : List (String × β)) :
    alookup k (m.map fun p => if p.1 = k then (k, v) else p) =
      (alookup k m).map (fun _ => v) := by
  induction m with
  | nil => simp [alookup]
  | cons p ps ih =>
    by_cases h : p.1 = k
    · simp [alookup, h]
    · simp [alookup, h, ih]

theorem alookup_map_set_ne {β : Type} {k k' : String} (v : β) (m : List (String × β))
    (h : k' ≠ k) :
    alookup k' (m.map fun p => if p.1 = k then (k, v) else p) = alookup k' m := by
  induction m with
  | nil => simp
  | cons p ps ih =>
    by_cases hp : p.1 = k
    · have hkk : k ≠ k' := fun he => h he.symm
      simp [alookup, hp, hkk, h, ih]
    · by_cases hq : p.1 = k' <;> simp [alookup, hp, hq, h, ih]

theorem alookup_updateA_self {β : Type} (k : String) (v : β) (m : List (String × β)) :
    alookup k (updateA m k v) = some v := by
  unfold updateA
  by_cases h : (alookup k m).isSome
  · rw [if_pos h, alookup_map_set]
    obtain ⟨w, hw⟩ := Option.isSome_iff_exists.mp h
    rw [hw]; rfl
  · rw [if_neg h, alookup_append]
    have hn : alookup k m = none := Option.not_isSome_iff_eq_none.mp h
    rw [hn]
    simp [alookup]

theorem alookup_updateA_ne {β : Type} {k k' : String} (v : β) (m : List (String × β))
    (h : k' ≠ k) :
    alookup k' (updateA m k v) = alookup k' m := by
  unfold updateA
  by_cases hs : (alookup k m).isSome
  · rw [if_pos hs, alookup_map_set_ne v m h]
  · rw [if_neg hs, alookup_append]
    have : k ≠ k' := fun he => h he.symm
    cases hl : alookup k' m <;> simp [alookup, this]

theorem alookup_updateA_isSome {β : Type} {k' : String} (k : String) (v : β)
    (m : List (String × β)) (h : (alookup k' m).isSome) :
    (alookup k' (updateA m k v)).isSome := by
  by_cases he : k' = k
  · subst he; rw [alookup_updateA_self]; rfl
  · rw [alookup_updateA_ne v m he]; exact h

theorem alookup_eq_none_iff {β : Type} (k : String) (m : List (String × β)) :
    alookup k m = none ↔ k ∉ m.map Prod.fst := by
  induction m with
  | nil => simp [alookup]
  | cons p ps ih =>
    rw [List.map_cons, List.mem_cons]
    by_cases h : p.1 = k
    · rw [alookup, if_pos h]
      simp [h]
    · rw [alookup, if_neg h, ih]
      constructor
      · intro hnot hor
        cases hor with
        | inl he => exact h he.symm
        | inr hm => exact hnot hm
      · intro hnot hm
        exact hnot (Or.inr hm)

theorem WF_updateA {β : Type} {m : List (String × β)} (k : String) (v : β)
    (h : WFmap m) : WFmap (updateA m k v) := by
  unfold updateA WFmap
  by_cases hs : (alookup k m).isSome
  · rw [if_pos hs]
    have : (List.map Prod.fst (m.map fun p => if p.1 = k then (k, v) else p)) =
        m.map Prod.fst := by
      rw [List.map_map]
      apply List.map_congr_left
      intro p _
      by_cases hp : p.1 = k <;> simp [hp]
    rw [this]; exact h
  · rw [if_neg hs, List.map_append, List.nodup_append]
    refine ⟨h, List.nodup_singleton _, ?_⟩
    intro a ha hk
    have hak : a = k := by simpa using hk
    rw [hak] at ha
    exact (alookup_eq_none_iff k m).mp (Option.not_isSome_iff_eq_none.mp hs) ha

theorem map_set_id_of_not_mem {β : Type} {k : String} (v : β) {m : List (String × β)}
    (h : k ∉ m.map Prod.fst) :
    (m.map fun p => if p.1 = k then (k, v) else p) = m := by
  induction m with
  | nil => rfl
  | cons p ps ih =>
    rw [List.map_cons, List.mem_cons] at h
    push_neg at h
    have hp : p.1 ≠ k := fun he => h.1 he.symm
    rw [List.map_cons, if_neg hp, ih h.2]

theorem map_set_id {β : Type} {k : String} {v : β} {m : List (String × β)}
    (hWF : WFmap m) (h : alookup k m = some v) :
    (m.map fun p => if p.1 = k then (k, v) else p) = m := by
  induction m with
  | nil => rfl
  | cons p ps ih =>
    unfold WFmap at hWF
    rw [List.map_cons, List.nodup_cons] at hWF
    by_cases hp : p.1 = k
    · rw [alookup, if_pos hp] at h
      have hv : p.2 = v := by injection h
      have hps : k ∉ ps.map Prod.fst := hp ▸ hWF.1
      rw [List.map_cons, if_pos hp, map_set_id_of_not_mem v hps,
        show ((k, v) : String × β) = p from Prod.ext hp.symm hv.symm]
    · rw [alookup, if_neg hp] at h
      rw [List.map_cons, if_neg hp, ih hWF.2 h]

theorem updateA_id {β : Type} {k : String} {v : β} {m : List (String × β)}
    (hWF : WFmap m) (h : alookup k m = some v) : updateA m k v = m := by
  unfold updateA
  rw [if_pos (by rw [h]; rfl)]
  exact map_set_id hWF h

/-! ### Preservation lemmas for the captured-URL map -/

theorem truthy_some_ne {u : String} (hu : u ≠ "") : truthy (some u) = true := by
  simp [truthy, hu]

theorem handleCompleteClient_preserve_truthy {id u : String} {cap : UrlMap}
    (c : String) (e : ClientEntry) (h : alookup id cap = some u) (hu : u ≠ "") :
    alookup id (handleCompleteClient c e cap) = some u := by
  cases hsc : e.screenshot with
  | none => simp only [handleCompleteClient, hsc]; exact h
  | some url =>
    simp only [handleCompleteClient, hsc]
    by_cases hurl : url ≠ ""
    · rw [if_pos hurl]
      by_cases hg : truthy (alookup c cap) = false
      · rw [if_pos hg]
        by_cases hic : id = c
        · exfalso
          rw [← hic, h, truthy_some_ne hu] at hg
          exact absurd hg (by simp)
        · rw [alookup_updateA_ne _ _ hic]
          exact h
      · rw [if_neg hg]
        exact h
    · rw [if_neg hurl]
      exact h

theorem handleFailedClient_preserve_truthy {id u : String} {cap : UrlMap}
    (c st : String) (h : alookup id cap = some u) (hu : u ≠ "") :
    alookup id (handleFailedClient c st cap) = some u := by
  unfold handleFailedClient
  by_cases hg : truthy (alookup c cap) = false
  · rw [if_pos hg]
    by_cases hic : id = c
    · exfalso
      rw [← hic, h, truthy_some_ne hu] at hg
      exact absurd hg (by simp)
    · rw [alookup_updateA_ne _ _ hic]
      exact h
  · rw [if_neg hg]
    exact h

theorem handleCompleteClient_preserve_isSome {id : String} {cap : UrlMap}
    (c : String) (e : ClientEntry) (h : (alookup id cap).isSome) :
    (alookup id (handleCompleteClient c e cap)).isSome := by
  cases hsc : e.screenshot with
  | none => simp only [handleCompleteClient, hsc]; exact h
  | some url =>
    simp only [handleCompleteClient, hsc]
    by_cases hurl : url ≠ ""
    · rw [if_pos hurl]
      by_cases hg : truthy (alookup c cap) = false
      · rw [if_pos hg]
        exact alookup_updateA_isSome c url cap h
      · rw [if_neg hg]; exact h
    · rw [if_neg hurl]; exact h

theorem handleFailedClient_preserve_isSome {id : String} {cap : UrlMap}
    (c st : String) (h : (alookup id cap).isSome) :
    (alookup id (handleFailedClient c st cap)).isSome := by
  unfold handleFailedClient
  by_cases hg : truthy (alookup c cap) = false
  · rw [if_pos hg]
    exact alookup_updateA_isSome c "" cap h
  · rw [if_neg hg]; exact h

theorem processOne_preserve_truthy {id u : String} {s : Snapshot}
    {acc : List String × UrlMap} (c : String)
    (h : alookup id acc.2 = some u) (hu : u ≠ "") :
    alookup id (processOne s acc c).2 = some u := by
  unfold processOne
  cases hc : alookup c s with
  | none => exact h
  | some e =>
    by_cases h1 : e.status = "Complete"
    · simp only [h1, if_pos]
      exact handleCompleteClient_preserve_truthy c e h hu
    · by_cases h2 : e.status = "Failed" ∨ e.status = "Bounced"
      · simp only [h1, if_neg, if_pos h2]
        exact handleFailedClient_preserve_truthy c e.status h hu
      · simp only [if_neg h1, if_neg h2]
        exact h

theorem processOne_preserve_isSome {id : String} {s : Snapshot}
    {acc : List String × UrlMap} (c : String) (h : (alookup id acc.2).isSome) :
    (alookup id (processOne s acc c).2).isSome := by
  unfold processOne
  cases hc : alookup c s with
  | none => exact h
  | some e =>
    by_cases h1 : e.status = "Complete"
    · simp only [h1, if_pos]
      exact handleCompleteClient_preserve_isSome c e h
    · by_cases h2 : e.status = "Failed" ∨ e.status = "Bounced"
      · simp only [if_neg h1, if_pos h2]
        exact handleFailedClient_preserve_isSome c e.status h
      · simp only [if_neg h1, if_neg h2]
        exact h

theorem foldl_processOne_preserve_truthy {id u : String} {s : Snapshot}
    (l : List String) :
    ∀ acc : List String × UrlMap, alookup id acc.2 = some u → u ≠ "" →
      alookup id (l.foldl (processOne s) acc).2 = some u := by
  induction l with
  | nil => intro acc h _; exact h
  | cons c cs ih =>
    intro acc h hu
    exact ih (processOne s acc c) (processOne_preserve_truthy c h hu) hu

theorem foldl_processOne_preserve_isSome {id : String} {s : Snapshot}
    (l : List String) :
    ∀ acc : List String × UrlMap, (alookup id acc.2).isSome →
      (alookup id (l.foldl (processOne s) acc).2).isSome := by
  induction l with
  | nil => intro acc h; exact h
  | cons c cs ih =>
    intro acc h
    exact ih (processOne s acc c) (processOne_preserve_isSome c h)

theorem processClientResults_preserve_truthy {id u : String} (s : Snapshot)
    (req : List String) (cap : UrlMap) (h : alookup id cap = some u) (hu : u ≠ "") :
    alookup id (processClientResults s req cap).2 = some u :=
  foldl_processOne_preserve_truthy (clientsToCheck req s) ([], cap) h hu

theorem processClientResults_preserve_isSome {id : String} (s : Snapshot)
    (req : List String) (cap : UrlMap) (h : (alookup id cap).isSome) :
    (alookup id (processClientResults s req cap).2).isSome :=
  foldl_processOne_preserve_isSome (clientsToCheck req s) ([], cap) h

/-! ### Stability of reprocessing an identical snapshot -/

/-- After a snapshot has been processed, the captured-URL map covers a
client: a `Complete` client with a truthy artifact has a truthy entry,
and a `Failed`/`Bounced` client has a truthy entry or the recorded
sentinel. -/
def Covered (s : Snapshot) (m : UrlMap) (c : String) : Prop :=
  ∀ e : ClientEntry, alookup c s = some e →
    ((e.status = "Complete" →
        ∀ u, e.screenshot = some u → u ≠ "" → truthy (alookup c m) = true) ∧
      ((e.status = "Failed" ∨ e.status = "Bounced") →
        truthy (alookup c m) = true ∨ alookup c m = some ""))

theorem covered_congr {s : Snapshot} {m1 m2 : UrlMap} {c : String}
    (heq : alookup c m1 = alookup c m2) (h : Covered s m1 c) : Covered s m2 c := by
  intro e he
  obtain ⟨hA, hB⟩ := h e he
  constructor
  · intro h1 u hsc hu
    rw [← heq]
    exact hA h1 u hsc hu
  · intro h2
    rw [← heq]
    exact hB h2

theorem covered_establish (s : Snapshot) (acc : List String × UrlMap) (c : String) :
    Covered s (processOne s acc c).2 c := by
  intro e he
  constructor
  · intro h1 u hsc hu
    simp only [processOne, he, h1, if_pos]
    simp only [handleCompleteClient, hsc]
    rw [if_pos hu]
    by_cases hg : truthy (alookup c acc.2) = false
    · rw [if_pos hg, alookup_updateA_self]
      exact truthy_some_ne hu
    · rw [if_neg hg]
      exact Bool.not_eq_false _ |>.mp hg
  · intro h2
    have h1 : ¬ e.status = "Complete" := by
      rcases h2 with h | h <;> rw [h] <;> decide
    simp only [processOne, he, if_neg h1, if_pos h2]
    unfold handleFailedClient
    by_cases hg : truthy (alookup c acc.2) = false
    · rw [if_pos hg, alookup_updateA_self]
      right; rfl
    · rw [if_neg hg]
      left
      exact Bool.not_eq_false _ |>.mp hg

theorem processOne_alookup_ne {s : Snapshot} {acc : List String × UrlMap}
    {id c : String} (h : id ≠ c) :
    alookup id (processOne s acc c).2 = alookup id acc.2 := by
  unfold processOne
  cases hc : alookup c s with
  | none => rfl
  | some e =>
    by_cases h1 : e.status = "Complete"
    · simp only [h1, if_pos]
      cases hsc : e.screenshot with
      | none => simp only [handleCompleteClient, hsc]
      | some url =>
        simp only [handleCompleteClient, hsc]
        by_cases hurl : url ≠ ""
        · rw [if_pos hurl]
          by_cases hg : truthy (alookup c acc.2) = false
          · rw [if_pos hg, alookup_updateA_ne _ _ h]
          · rw [if_neg hg]
        · rw [if_neg hurl]
    · by_cases h2 : e.status = "Failed" ∨ e.status = "Bounced"
      · simp only [if_neg h1, if_pos h2]
        unfold handleFailedClient
        by_cases hg : truthy (alookup c acc.2) = false
        · rw [if_pos hg, alookup_updateA_ne _ _ h]
        · rw [if_neg hg]
      · simp only [if_neg h1, if_neg h2]

theorem covered_preserve {s : Snapshot} {acc : List String × UrlMap} {c : String}
    (c' : String) (h : Covered s acc.2 c) : Covered s (processOne s acc c').2 c := by
  by_cases he : c = c'
  · rw [he]
    exact covered_establish s acc c'
  · exact covered_congr (processOne_alookup_ne he).symm h

theorem covered_foldl_preserve {s : Snapshot} {c : String} (l : List String) :
    ∀ acc : List String × UrlMap, Covered s acc.2 c →
      Covered s (l.foldl (processOne s) acc).2 c := by
  induction l with
  | nil => intro acc h; exact h
  | cons d ds ih =>
    intro acc h
    exact ih (processOne s acc d) (covered_preserve d h)

theorem covered_foldl (s : Snapshot) (l : List String) :
    ∀ (acc : List String × UrlMap) (c : String), c ∈ l →
      Covered s (l.foldl (processOne s) acc).2 c := by
  induction l with
  | nil => intro _ _ h; exact absurd h (List.not_mem_nil _)
  | cons d ds ih =>
    intro acc c hc
    rw [List.mem_cons] at hc
    cases hc with
    | inl he =>
      rw [List.foldl_cons]
      exact covered_foldl_preserve ds (processOne s acc d)
        (he ▸ covered_establish s acc d)
    | inr hm =>
      rw [List.foldl_cons]
      exact ih (processOne s acc d) c hm

theorem WF_handleCompleteClient {cap : UrlMap} (c : String) (e : ClientEntry)
    (h : WFmap cap) : WFmap (handleCompleteClient c e cap) := by
  cases hsc : e.screenshot with
  | none => simp only [handleCompleteClient, hsc]; exact h
  | some url =>
    simp only [handleCompleteClient, hsc]
    by_cases hurl : url ≠ ""
    · rw [if_pos hurl]
      by_cases hg : truthy (alookup c cap) = false
      · rw [if_pos hg]
        exact WF_updateA c url h
      · rw [if_neg hg]; exact h
    · rw [if_neg hurl]; exact h

theorem WF_handleFailedClient {cap : UrlMap} (c st : String)
    (h : WFmap cap) : WFmap (handleFailedClient c st cap) := by
  unfold handleFailedClient
  by_cases hg : truthy (alookup c cap) = false
  · rw [if_pos hg]
    exact WF_updateA c "" h
  · rw [if_neg hg]; exact h

theorem WF_processOne {s : Snapshot} {acc : List String × UrlMap} (c : String)
    (h : WFmap acc.2) : WFmap (processOne s acc c).2 := by
  unfold processOne
  cases hc : alookup c s with
  | none => exact h
  | some e =>
    by_cases h1 : e.status = "Complete"
    · simp only [h1, if_pos]
      exact WF_handleCompleteClient c e h
    · by_cases h2 : e.status = "Failed" ∨ e.status = "Bounced"
      · simp only [if_neg h1, if_pos h2]
        exact WF_handleFailedClient c e.status h
      · simp only [if_neg h1, if_neg h2]
        exact h

theorem WF_foldl_processOne {s : Snapshot} (l : List String) :
    ∀ acc : List String × UrlMap, WFmap acc.2 →
      WFmap (l.foldl (processOne s) acc).2 := by
  induction l with
  | nil => intro acc h; exact h
  | cons c cs ih =>
    intro acc h
    exact ih (processOne s acc c) (WF_processOne c h)

theorem processOne_stable {s : Snapshot} {acc : List String × UrlMap} {c : String}
    (hWF : WFmap acc.2) (hcov : Covered s acc.2 c) :
    (processOne s acc c).2 = acc.2 := by
  cases hc : alookup c s with
  | none => simp only [processOne, hc]
  | some e =>
    obtain ⟨hA, hB⟩ := hcov e hc
    by_cases h1 : e.status = "Complete"
    · simp only [processOne, hc, h1, if_pos]
      cases hsc : e.screenshot with
      | none => simp only [handleCompleteClient, hsc]
      | some url =>
        simp only [handleCompleteClient, hsc]
        by_cases hurl : url ≠ ""
        · rw [if_pos hurl, hA h1 url hsc hurl]
          simp
        · rw [if_neg hurl]
    · by_cases h2 : e.status = "Failed" ∨ e.status = "Bounced"
      · simp only [processOne, hc, if_neg h1, if_pos h2]
        unfold handleFailedClient
        cases hB h2 with
        | inl ht => rw [ht]; simp
        | inr hsent =>
          have ht : truthy (alookup c acc.2) = false := by
            rw [hsent]; rfl
          rw [if_pos ht]
          exact updateA_id hWF hsent
      · simp only [processOne, hc, if_neg h1, if_neg h2]

theorem foldl_processOne_stable {s : Snapshot} (l : List String) :
    ∀ acc : List String × UrlMap, WFmap acc.2 → (∀ c ∈ l, Covered s acc.2 c) →
      (l.foldl (processOne s) acc).2 = acc.2 := by
  induction l with
  | nil => intro acc _ _; rfl
  | cons c cs ih =>
    intro acc hWF hcov
    rw [List.foldl_cons]
    have hstep : (processOne s acc c).2 = acc.2 :=
      processOne_stable hWF (hcov c (List.mem_cons_self c cs))
    have := ih (processOne s acc c) (hstep ▸ hWF)
      (fun d hd => hstep ▸ hcov d (List.mem_cons_of_mem c hd))
    rw [this, hstep]

/-! ### Counting versus quantification -/

theorem length_filter_eq_iff_all {α : Type} (l : List α) (p : α → Bool) :
    (l.filter p).length = l.length ↔ l.all p = true := by
  constructor
  · intro h
    rw [List.all_eq_true]
    have : l.filter p = l := (List.filter_sublist l).eq_of_length h
    intro x hx
    exact (List.mem_filter.mp (this ▸ hx)).2
  · intro h
    rw [List.all_eq_true] at h
    rw [List.filter_eq_self.mpr h]

theorem all_filter_eq {α : Type} (l : List α) (p q : α → Bool) :
    (l.filter p).all q = l.all (fun a => !p a || q a) := by
  induction l with
  | nil => rfl
  | cons a as ih =>
    by_cases h : p a
    · rw [List.filter_cons_of_pos h, List.all_cons, List.all_cons, ih, h]
      simp
    · rw [List.filter_cons_of_neg (by simpa using h), List.all_cons, ih]
      simp [h]

theorem all_ext {α : Type} (l : List α) {p q : α → Bool} (h : ∀ a, p a = q a) :
    l.all p = l.all q := congrArg l.all (funext h)

theorem beq_length_filter_eq_all {α : Type} (l : List α) (p : α → Bool) :
    ((l.filter p).length == l.length) = l.all p := by
  by_cases h : (l.filter p).length = l.length
  · rw [(length_filter_eq_iff_all l p).mp h]
    exact beq_iff_eq.mpr h
  · have hall : l.all p ≠ true := fun hc => h ((length_filter_eq_iff_all l p).mpr hc)
    rw [Bool.eq_false_iff.mpr hall]
    simpa using h

theorem allFinishedB_eq_all (req : List String) (res : Snapshot) :
    allFinishedB req res = ((clientsToCheck req res).all fun id =>
      match alookup id res with
      | some e => isTerminal e.status
      | none => true) := by
  unfold allFinishedB finishedClients
  rw [beq_length_filter_eq_all, appearedClients, all_filter_eq]
  apply all_ext
  intro id
  cases h : alookup id res <;> simp [h]

theorem allRequestedAppearedB_eq_all (req : List String) (res : Snapshot) :
    allRequestedAppearedB req res =
      ((clientsToCheck req res).all fun id => (alookup id res).isSome) := by
  unfold allRequestedAppearedB appearedClients
  rw [beq_length_filter_eq_all]

theorem allCompleteHaveUrlsB_eq_all (req : List String) (res : Snapshot) (cap : UrlMap) :
    allCompleteHaveUrlsB req res cap = ((clientsToCheck req res).all fun id =>
      match alookup id res with
      | some e => if e.status = "Complete" then truthy (alookup id cap) else true
      | none => true) := by
  unfold allCompleteHaveUrlsB completeWithUrls completeClients appearedClients
  rw [beq_length_filter_eq_all, all_filter_eq, all_filter_eq]
  apply all_ext
  intro id
  cases h : alookup id res with
  | none => simp [h]
  | some e => by_cases hc : e.status = "Complete" <;> simp [h, hc]

/-! ### Polling-loop lemmas -/

theorem foldl_processOne_nil (l : List String) :
    ∀ acc : List String × UrlMap, l.foldl (processOne ([] : Snapshot)) acc = acc := by
  induction l with
  | nil => intro acc; rfl
  | cons c cs ih =>
    intro acc
    rw [List.foldl_cons, show processOne ([] : Snapshot) acc c = acc from rfl, ih]

theorem processClientResults_nil (req : List String) (cap : UrlMap) :
    processClientResults ([] : Snapshot) req cap = ([], cap) := by
  unfold processClientResults
  exact foldl_processOne_nil _ _

theorem checkIfShouldExit_nil (req : List String) (cap : UrlMap) (found : List String)
    (attempt : Nat) : checkIfShouldExit req ([] : Snapshot) cap found attempt = false := by
  simp [checkIfShouldExit]

theorem pollFromAux_count_le (clients : List String) (wire : Nat → HttpResponse) :
    ∀ (r attempt : Nat) (cap : UrlMap), (pollFromAux clients wire cap attempt r).2 ≤ r := by
  intro r
  induction r with
  | zero => intro attempt cap; exact Nat.le_refl 0
  | succ n ih =>
    intro attempt cap
    cases h : fetchResults (wire attempt) with
    | error msg =>
      simp only [pollFromAux, h]
      omega
    | ok o =>
      cases o with
      | none =>
        simp only [pollFromAux, h]
        exact Nat.succ_le_succ (ih (attempt + 1) cap)
      | some results =>
        simp only [pollFromAux, h]
        split
        · omega
        · exact Nat.succ_le_succ (ih (attempt + 1) _)

theorem pollFromAux_uninformative (clients : List String) (wire : Nat → HttpResponse)
    (hyp : ∀ n, fetchResults (wire n) = .ok (some []) ∨ fetchResults (wire n) = .ok none) :
    ∀ (r attempt : Nat) (cap : UrlMap),
      (pollFromAux clients wire cap attempt r).1 = .ok (buildFinalResults clients cap) := by
  intro r
  induction r with
  | zero => intro attempt cap; rfl
  | succ n ih =>
    intro attempt cap
    rcases hyp attempt with h | h
    · simp only [pollFromAux, h, processClientResults_nil, checkIfShouldExit_nil,
        if_false, Bool.false_eq_true]
      exact ih (attempt + 1) cap
    · simp only [pollFromAux, h]
      exact ih (attempt + 1) cap

/-! ### Sanitizer lemmas -/

theorem mem_collapseWsAux {sep : Char} (l : List Char) :
    ∀ (prev : Bool) (ch : Char), ch ∈ collapseWsAux sep prev l →
      ch = sep ∨ (ch ∈ l ∧ jsWhitespace ch = false) := by
  induction l with
  | nil => intro prev ch h; exact absurd h (List.not_mem_nil ch)
  | cons c cs ih =>
    intro prev ch h
    unfold collapseWsAux at h
    by_cases hw : jsWhitespace c
    · rw [if_pos hw, List.mem_append] at h
      cases h with
      | inl h1 =>
        left
        cases prev with
        | true => simp at h1
        | false => simpa using h1
      | inr h2 =>
        rcases ih true ch h2 with hs | ⟨hm, hws⟩
        · left; exact hs
        · right; exact ⟨List.mem_cons_of_mem c hm, hws⟩
    · rw [if_neg hw, List.mem_cons] at h
      cases h with
      | inl he =>
        right
        subst he
        exact ⟨List.mem_cons_self ch cs, Bool.eq_false_iff.mpr hw⟩
      | inr hm =>
        rcases ih false ch hm with hs | ⟨hm2, hws⟩
        · left; exact hs
        · right; exact ⟨List.mem_cons_of_mem c hm2, hws⟩

theorem collapseWsAux_id {sep : Char} (l : List Char)
    (h : ∀ c ∈ l, jsWhitespace c = false) :
    ∀ prev, collapseWsAux sep prev l = l := by
  induction l with
  | nil => intro prev; rfl
  | cons c cs ih =>
    intro prev
    unfold collapseWsAux
    rw [if_neg (by simp [h c (List.mem_cons_self c cs)])]
    rw [ih (fun d hd => h d (List.mem_cons_of_mem c hd)) false]

theorem allowed_toLower_id {ch : Char} (ha : allowedChar ch = true)
    (hws : jsWhitespace ch = false) : toLowerModel ch = ch := by
  unfold allowedChar at ha
  rw [hws] at ha
  unfold jsWhitespace at hws
  simp only [Bool.or_false, Bool.or_eq_true, decide_eq_true_eq] at ha
  simp only [decide_eq_false_iff_not] at hws
  unfold toLowerModel
  rw [if_neg (by omega)]

theorem map_id_of_mem {α : Type} {f : α → α} {l : List α} (h : ∀ a ∈ l, f a = a) :
    l.map f = l := by
  induction l with
  | nil => rfl
  | cons a as ih =>
    rw [List.map_cons, h a (List.mem_cons_self a as),
      ih (fun b hb => h b (List.mem_cons_of_mem a hb))]

theorem sanitize_charset (name : List Char) (b : Bool) (ch : Char)
    (h : ch ∈ sanitizeFilename name b) :
    (allowedChar ch = true ∧ jsWhitespace ch = false) ∨ ch = (if b then '-' else '_') := by
  unfold sanitizeFilename at h
  have h2 := List.take_subset _ _ h
  rcases mem_collapseWsAux _ false ch h2 with hsep | ⟨hm, hws⟩
  · right; exact hsep
  · left
    exact ⟨(List.mem_filter.mp hm).2, hws⟩

theorem sanitize_len (name : List Char) (b : Bool) :
    (sanitizeFilename name b).length ≤ 100 := by
  unfold sanitizeFilename
  rw [List.length_take]
  exact min_le_left _ _

theorem sanitize_hyphen_idem (name : List Char) :
    sanitizeFilename (sanitizeFilename name true) true = sanitizeFilename name true := by
  have hchar : ∀ ch ∈ sanitizeFilename name true,
      (allowedChar ch = true ∧ jsWhitespace ch = false) ∨ ch = '-' := by
    intro ch hch
    simpa using sanitize_charset name true ch hch
  have h1 : (sanitizeFilename name true).map toLowerModel = sanitizeFilename name true := by
    apply map_id_of_mem
    intro ch hch
    rcases hchar ch hch with ⟨ha, hws⟩ | hsep
    · exact allowed_toLower_id ha hws
    · subst hsep; decide
  have h2 : (sanitizeFilename name true).filter allowedChar = sanitizeFilename name true := by
    apply List.filter_eq_self.mpr
    intro ch hch
    rcases hchar ch hch with ⟨ha, _⟩ | hsep
    · exact ha
    · subst hsep; decide
  have h3 : collapseWsAux '-' false (sanitizeFilename name true) =
      sanitizeFilename name true := by
    apply collapseWsAux_id
    intro ch hch
    rcases hchar ch hch with ⟨_, hws⟩ | hsep
    · exact hws
    · subst hsep; decide
  have h4 : (sanitizeFilename name true).take 100 = sanitizeFilename name true := by
    conv_lhs => rw [sanitizeFilename]
    rw [List.take_take]
    rfl
  calc sanitizeFilename (sanitizeFilename name true) true
      = (collapseWsAux '-' false
          (((sanitizeFilename name true).map toLowerModel).filter allowedChar)).take 100 :=
        rfl
    _ = (collapseWsAux '-' false
          ((sanitizeFilename name true).filter allowedChar)).take 100 := by rw [h1]
    _ = (collapseWsAux '-' false (sanitizeFilename name true)).take 100 := by rw [h2]
    _ = (sanitizeFilename name true).take 100 := by rw [h3]
    _ = sanitizeFilename name true := h4

/-! ### Preview-name lemmas -/

theorem capRuns_cons_word {ch : Char} (cs : List Char) (hw : isWordChar ch = true) :
    capRuns (ch :: cs) =
      (toUpperModel ch :: cs.takeWhile isWordChar) ++ capRuns (cs.dropWhile isWordChar) := by
  simp only [capRuns, hw, if_true]

theorem capRuns_cons_nonword {ch : Char} (cs : List Char) (hw : isWordChar ch = false) :
    capRuns (ch :: cs) = ch :: capRuns cs := by
  simp only [capRuns, hw, Bool.false_eq_true, if_false]

theorem capWordsAux_eq_capRuns_main :
    ∀ (n : Nat) (l : List Char), l.length ≤ n →
      capWordsAux false l = capRuns l ∧
      capWordsAux true l = l.takeWhile isWordChar ++ capRuns (l.dropWhile isWordChar) := by
  intro n
  induction n with
  | zero =>
    intro l hl
    have hnil : l = [] := List.length_eq_zero.mp (Nat.le_zero.mp hl)
    subst hnil
    constructor
    · simp [capWordsAux, capRuns]
    · simp [capWordsAux, capRuns]
  | succ n ih =>
    intro l hl
    cases l with
    | nil =>
      constructor
      · simp [capWordsAux, capRuns]
      · simp [capWordsAux, capRuns]
    | cons ch cs =>
      have hcs : cs.length ≤ n := by
        simp only [List.length_cons] at hl
        omega
      obtain ⟨ih1, ih2⟩ := ih cs hcs
      by_cases hw : isWordChar ch = true
      · constructor
        · simp only [capWordsAux, hw, Bool.not_false, Bool.and_true, if_true]
          rw [ih2, capRuns_cons_word cs hw, List.cons_append]
        · simp only [capWordsAux, hw, Bool.not_true, Bool.and_false, Bool.false_eq_true,
            if_false]
          rw [ih2, List.takeWhile_cons_of_pos hw, List.dropWhile_cons_of_pos hw,
            List.cons_append]
      · have hwf : isWordChar ch = false := Bool.eq_false_iff.mpr hw
        constructor
        · simp only [capWordsAux, hwf, Bool.false_and, Bool.false_eq_true, if_false]
          rw [ih1, capRuns_cons_nonword cs hwf]
        · simp only [capWordsAux, hwf, Bool.false_and, Bool.false_eq_true, if_false]
          rw [ih1, List.takeWhile_cons_of_neg (by simp [hwf]),
            List.dropWhile_cons_of_neg (by simp [hwf]),
            capRuns_cons_nonword cs hwf, List.nil_append]

theorem capWords_eq_capRuns (l : List Char) : capWordsAux false l = capRuns l :=
  (capWordsAux_eq_capRuns_main l.length l (Nat.le_refl _)).1

/-! ### Claim theorems -/

/-- C1: for every poll attempt, the exit decision of `checkIfShouldExit`
follows the spec's ordered short-circuit rule: continue on an empty
snapshot; continue unless every appeared client has a terminal status;
continue when not every requested client appeared and `attempt < 10`;
terminate successfully when every terminal-success client has a truthy
captured URL or `attempt >= 15`; otherwise continue. -/
theorem c1_exit_decision_follows_spec_rule (requestedClients : List String)
    (results : Snapshot) (capturedUrls : UrlMap) (clientsInResults : List String)
    (attempt : Nat) :
    checkIfShouldExit requestedClients results capturedUrls clientsInResults attempt =
      specShouldExit requestedClients results capturedUrls attempt := by
  unfold checkIfShouldExit specShouldExit
  rw [allFinishedB_eq_all, allRequestedAppearedB_eq_all, allCompleteHaveUrlsB_eq_all]

/-- C2 counterexample: a recorded `Failed` outcome (the empty-string
sentinel) IS replaced by a later `Complete` with a URL — processing a
`Failed` snapshot records `""` for `x`, and processing a subsequent
`Complete` snapshot overwrites it with the URL, so the claimed
immutability of `Failed` outcomes fails. -/
theorem c2_counterexample :
    alookup "x" (processSnapshots ["x"] []
        [[("x", ⟨"Failed", none⟩)]]) = some "" ∧
    alookup "x" (processSnapshots ["x"] []
        [[("x", ⟨"Failed", none⟩)], [("x", ⟨"Complete", some "u"⟩)]]) = some "u" := by
  constructor <;> rfl

/-- C2 (amended): over any sequence of processed snapshots, a recorded
truthy URL (`Complete(url)`) is never retracted or overwritten, and a
recorded entry (including the `Failed` sentinel) is never removed; a
`Failed` sentinel may however be upgraded to `Complete(url)` by a later
snapshot (see the counterexample). -/
theorem c2_amended_monotonicity (requestedClients : List String) (snaps : List Snapshot)
    (captured : UrlMap) (id u : String) :
    (alookup id captured = some u → u ≠ "" →
      alookup id (processSnapshots requestedClients captured snaps) = some u) ∧
    ((alookup id captured).isSome →
      (alookup id (processSnapshots requestedClients captured snaps)).isSome) := by
  induction snaps generalizing captured with
  | nil => exact ⟨fun h _ => h, fun h => h⟩
  | cons s ss ih =>
    have heq : processSnapshots requestedClients captured (s :: ss) =
        processSnapshots requestedClients
          (processClientResults s requestedClients captured).2 ss := rfl
    rw [heq]
    constructor
    · intro h hu
      exact (ih _).1
        (processClientResults_preserve_truthy s requestedClients captured h hu) hu
    · intro h
      exact (ih _).2 (processClientResults_preserve_isSome s requestedClients captured h)

/-- C2 witness: the amended monotonicity applied to a concrete state with
a recorded URL and a subsequent `Failed` snapshot. -/
theorem c2_amended_witness :
    alookup "x" (processSnapshots ["x"] [("x", "v")]
      [[("x", ⟨"Failed", none⟩)]]) = some "v" ∧
    (alookup "x" (processSnapshots ["x"] [("x", "v")]
      [[("x", ⟨"Failed", none⟩)]])).isSome :=
  ⟨(c2_amended_monotonicity ["x"] [[("x", ⟨"Failed", none⟩)]]
      [("x", "v")] "x" "v").1 rfl (by decide),
   (c2_amended_monotonicity ["x"] [[("x", ⟨"Failed", none⟩)]]
      [("x", "v")] "x" "v").2 (by decide)⟩

/-- C3: the polling loop always stops within its budget — it performs at
most `maxAttempts` poll attempts — and when every fetch is an empty
snapshot or a soft failure (so the termination rule never fires), budget
exhaustion still returns the captured results exactly like a clean
termination. -/
theorem c3_termination_bounded (clients : List String) (wire : Nat → HttpResponse)
    (captured : UrlMap) (attempt r : Nat) :
    (pollFromAux clients wire captured attempt r).2 ≤ r ∧
    ((∀ n, fetchResults (wire n) = .ok (some []) ∨ fetchResults (wire n) = .ok none) →
      (pollFromAux clients wire captured attempt r).1 =
        .ok (buildFinalResults clients captured)) :=
  ⟨pollFromAux_count_le clients wire r attempt captured,
   fun hyp => pollFromAux_uninformative clients wire hyp r attempt captured⟩

/-- C3 witness: the bound and the budget-exhaustion result on a run whose
three attempts all return empty snapshots. -/
theorem c3_witness :
    (pollFromAux ["a"] (fun _ => .success none) [] 1 3).2 ≤ 3 ∧
    (pollFromAux ["a"] (fun _ => .success none) [] 1 3).1 =
      .ok (buildFinalResults ["a"] []) :=
  ⟨(c3_termination_bounded ["a"] (fun _ => .success none) [] 1 3).1,
   (c3_termination_bounded ["a"] (fun _ => .success none) [] 1 3).2
     (fun _ => Or.inl rfl)⟩

/-- C4: when client `a` completes with a URL, client `b` reports
`Failed`/`Bounced`, and client `c` never appears in the snapshot, the
final successful-URL mapping contains exactly `a`'s entry with its URL
and no entry for `b` or `c`. -/
theorem c4_partial_success (s : Snapshot) (a b c u : String) (e2 : ClientEntry)
    (hab : a ≠ b) (_hac : a ≠ c) (_hbc : b ≠ c)
    (ha : alookup a s = some ⟨"Complete", some u⟩) (hu : u ≠ "")
    (hb : alookup b s = some e2) (hb2 : e2.status = "Failed" ∨ e2.status = "Bounced")
    (hc : alookup c s = none) :
    buildFinalResults [a, b, c] (processClientResults s [a, b, c] []).2 = [(a, u)] := by
  have h1 : ¬ e2.status = "Complete" := by
    rcases hb2 with h | h <;> rw [h] <;> decide
  have step1 : processOne s (([] : List String), ([] : UrlMap)) a = ([a], [(a, u)]) := by
    simp [processOne, ha, handleCompleteClient, hu, truthy, updateA, alookup]
  have step2 : processOne s ([a], [(a, u)]) b = ([a, b], [(a, u), (b, "")]) := by
    simp [processOne, hb, h1, hb2, handleFailedClient, truthy, updateA, alookup, hab]
  have step3 : processOne s ([a, b], [(a, u), (b, "")]) c = ([a, b], [(a, u), (b, "")]) := by
    simp [processOne, hc]
  unfold processClientResults clientsToCheck
  rw [if_pos (by simp)]
  simp only [List.foldl_cons, List.foldl_nil]
  rw [step1, step2, step3]
  simp [buildFinalResults, hu]

/-- C4 witness: the partial-success materialization on a concrete
snapshot where `a` is complete with a URL, `b` failed and `c` is absent. -/
theorem c4_witness :
    buildFinalResults ["a", "b", "c"]
      (processClientResults [("a", ⟨"Complete", some "u"⟩), ("b", ⟨"Failed", none⟩)]
        ["a", "b", "c"] []).2 = [("a", "u")] :=
  c4_partial_success _ "a" "b" "c" "u" ⟨"Failed", none⟩ (by decide) (by decide) (by decide)
    (by decide) (by decide) (by decide) (Or.inl (by decide)) (by decide)

/-- C5: during polling, a fetch failure whose HTTP status is not 401 is a
soft failure — the attempt is skipped with the captured map untouched and
the loop continues — while a 401 failure immediately aborts the loop with
the authentication error after that single attempt. -/
theorem c5_soft_failure_and_auth_abort (clients : List String)
    (wire : Nat → HttpResponse) (captured : UrlMap) (attempt r : Nat)
    (status : Option Nat) :
    (wire attempt = .failure status → status ≠ some 401 →
      pollFromAux clients wire captured attempt (r + 1) =
        ((pollFromAux clients wire captured (attempt + 1) r).1,
         (pollFromAux clients wire captured (attempt + 1) r).2 + 1)) ∧
    (wire attempt = .failure (some 401) →
      pollFromAux clients wire captured attempt (r + 1) =
        (.error "Authentication failed - check your API credentials", 1)) := by
  constructor
  · intro hw hst
    have hf : fetchResults (wire attempt) = .ok none := by
      rw [hw]
      simp [fetchResults, hst]
    simp only [pollFromAux, hf]
  · intro hw
    have hf : fetchResults (wire attempt) =
        .error "Authentication failed - check your API credentials" := by
      rw [hw]
      simp [fetchResults]
    simp only [pollFromAux, hf]

/-- C5 witness: the soft-failure skip on a 500 response and the immediate
abort on a 401 response, at concrete inputs. -/
theorem c5_witness :
    pollFromAux ["a"] (fun _ => .failure (some 500)) [] 1 1 =
      ((pollFromAux ["a"] (fun _ => .failure (some 500)) [] 2 0).1,
       (pollFromAux ["a"] (fun _ => .failure (some 500)) [] 2 0).2 + 1) ∧
    pollFromAux ["a"] (fun _ => .failure (some 401)) [] 1 1 =
      (.error "Authentication failed - check your API credentials", 1) :=
  ⟨(c5_soft_failure_and_auth_abort ["a"] (fun _ => .failure (some 500)) [] 1 0
      (some 500)).1 rfl (by decide),
   (c5_soft_failure_and_auth_abort ["a"] (fun _ => .failure (some 401)) [] 1 0
      (some 401)).2 rfl⟩

/-- C6 counterexample: the code's `allFinished` is computed from the
CURRENT snapshot only; in a session whose first snapshot shows `b` with a
non-terminal status and whose second snapshot omits `b`, the code's
condition holds on the second snapshot while the spec's across-all-
snapshots condition is false. -/
theorem c6_counterexample :
    allFinishedB ["a", "b"] [("a", ⟨"Complete", some "u"⟩)] = true ∧
    specAllFinishedHistory
      [[("b", ⟨"Processing", none⟩)], [("a", ⟨"Complete", some "u"⟩)]] = false := by
  constructor <;> rfl

/-- C6 (amended): `allFinished` holds iff every client that appears in
the CURRENT snapshot (among the checked clients) is in a terminal status
per the backend's own status field — not across all snapshots so far. -/
theorem c6_amended_current_snapshot (requestedClients : List String) (results : Snapshot) :
    allFinishedB requestedClients results =
      ((appearedClients requestedClients results).all fun id =>
        match alookup id results with
        | some e => isTerminal e.status
        | none => false) := by
  unfold allFinishedB finishedClients
  rw [beq_length_filter_eq_all]

/-- C7 counterexample: with the underscore separator the sanitizer is NOT
idempotent — the first pass turns the space of `"a b"` into `'_'`, which
is outside `[a-z0-9\s-.]` and is stripped by a second pass. -/
theorem c7_counterexample :
    sanitizeFilename (sanitizeFilename ['a', ' ', 'b'] false) false ≠
      sanitizeFilename ['a', ' ', 'b'] false := by decide

/-- C7 (amended): the sanitizer is idempotent for the hyphen (default)
separator; for either separator its output contains only non-whitespace
characters of the allowed class or the configured separator, and is at
most 100 characters long.  (Idempotence fails for the underscore
separator; see the counterexample.) -/
theorem c7_amended_sanitizer (name : List Char) (b : Bool) (ch : Char) :
    sanitizeFilename (sanitizeFilename name true) true = sanitizeFilename name true ∧
    (ch ∈ sanitizeFilename name b →
      (allowedChar ch = true ∧ jsWhitespace ch = false) ∨ ch = (if b then '-' else '_')) ∧
    (sanitizeFilename name b).length ≤ 100 :=
  ⟨sanitize_hyphen_idem name, sanitize_charset name b ch, sanitize_len name b⟩

/-- C7 witness: the amended sanitizer properties applied at a concrete
input and character. -/
theorem c7_amended_witness :
    ((allowedChar 'a' = true ∧ jsWhitespace 'a' = false) ∨
      'a' = (if true then '-' else '_')) ∧
    (sanitizeFilename ['a', ' ', 'b'] true).length ≤ 100 :=
  ⟨(c7_amended_sanitizer ['a', ' ', 'b'] true 'a').2.1 (by decide),
   (c7_amended_sanitizer ['a', ' ', 'b'] true 'a').2.2⟩

/-- C8: processing the same snapshot twice in a row is idempotent — for
any well-formed captured-URL map, reprocessing the snapshot leaves the
map produced by the first pass unchanged. -/
theorem c8_idempotent_repoll (s : Snapshot) (requestedClients : List String)
    (capturedUrls : UrlMap) (hWF : WFmap capturedUrls) :
    (processClientResults s requestedClients
        (processClientResults s requestedClients capturedUrls).2).2 =
      (processClientResults s requestedClients capturedUrls).2 := by
  unfold processClientResults
  apply foldl_processOne_stable
  · exact WF_foldl_processOne _ ([], capturedUrls) hWF
  · intro c hc
    exact covered_foldl s _ ([], capturedUrls) c hc

/-- C8 witness: idempotent reprocessing of a concrete snapshot starting
from the empty (well-formed) map. -/
theorem c8_witness :
    WFmap ([] : UrlMap) ∧
    (processClientResults [("x", ⟨"Complete", some "u"⟩)] ["x"]
        (processClientResults [("x", ⟨"Complete", some "u"⟩)] ["x"] []).2).2 =
      (processClientResults [("x", ⟨"Complete", some "u"⟩)] ["x"] []).2 :=
  ⟨by simp [WFmap],
   c8_idempotent_repoll [("x", ⟨"Complete", some "u"⟩)] ["x"] [] (by simp [WFmap])⟩

/-- C9: each materialized preview record keeps the captured URL and the
raw client identifier unchanged, and its name is the client identifier
with underscores replaced by spaces, the first character of each maximal
word-character run uppercased, followed by the literal " Preview". -/
theorem c9_materialized_preview_fields (client url : List Char) :
    materializePreview client url =
      { name := capRuns (replUnderscore client) ++ " Preview".data,
        url := url, client := client } := by
  unfold materializePreview previewNameOf
  rw [capWords_eq_capRuns]

/-- C10: whenever the injection response's test id is falsy (missing or
empty), `getPreviewUrls` fails with "Missing test ID" having performed
zero poll attempts, regardless of the wire behavior and the attempt
budget. -/
theorem c10_missing_test_id (test_id : Option String) (emailClients : List String)
    (wire : Nat → HttpResponse) (maxAttempts : Nat) (h : truthy test_id = false) :
    getPreviewUrls test_id emailClients wire maxAttempts =
      (.error "Missing test ID", 0) := by
  unfold getPreviewUrls
  rw [if_pos h]

/-- C10 witness: the missing-test-id rejection at a concrete absent id. -/
theorem c10_witness :
    truthy none = false ∧
    getPreviewUrls none ["a"] (fun _ => .success none) 60 =
      (.error "Missing test ID", 0) :=
  ⟨rfl, c10_missing_test_id none ["a"] (fun _ => .success none) 60 rfl⟩
